import Mathlib

/-!
Verification development for the AscentPro career-progression tracker
(src/AscentPro.py).  The data model and the mutation / persistence
operations of the `AscentPro` class are embedded shallowly:

* Python strings are Lean `String`s; the character-level operations the
  source uses (`str.strip`, `str.split`) are re-implemented structurally
  over `String.data` so that every definition evaluates by `decide`.
* Python dicts (which preserve insertion order) are association lists
  `List (String × α)` with unique keys; `del d[k]` is key removal,
  `d[k] = v` on a missing key appends at the end.
* Each UI handler method is modelled as a pure function on the relevant
  slice of the `AscentPro` object state; messageboxes that report a
  failure and return without mutating become typed error results.
-/

namespace AscentPro

/-! ### Character-level string helpers -/

/-- Splits a character list at every occurrence of `sep`, keeping empty
pieces, as Python `str.split(sep)` does.  `cur` is the accumulator for
the piece currently being read (in reverse). -/
def splitCharsAux (sep : Char) (cur : List Char) : List Char → List (List Char)
  | [] => [cur.reverse]
  | c :: cs =>
    if c = sep then cur.reverse :: splitCharsAux sep [] cs
    else splitCharsAux sep (c :: cur) cs

/-- Mirrors Python `s.split(sep)` for a one-character separator:
`"a,,b".split(",") == ["a", "", "b"]` and `"".split(",") == [""]`. -/
def pySplit (sep : Char) (s : String) : List String :=
  (splitCharsAux sep [] s.data).map (fun l => ⟨l⟩)

/-- Mirrors Python `s.strip()`: removes leading and trailing whitespace. -/
def pyStrip (s : String) : String :=
  ⟨((s.data.dropWhile Char.isWhitespace).reverse.dropWhile Char.isWhitespace).reverse⟩

/-! ### Data model

The in-memory stores of the `AscentPro` object (`initialize_data_structures`,
`load_data`) and the persisted JSON document (`save_data`, source
lines 216-229). -/

/-- One meeting record, as built by `add_meeting` (source lines 1597-1603). -/
structure Meeting where
  date : String
  title : String
  highlights : String
  notes : String
  action_items : String
deriving DecidableEq

/-- A member skill field (`technical_skills` / `soft_skills`) as found in a
stored document: either the current flat list of `"category: skill"`
strings or the legacy nested map `{category: [skills...]}`
(`load_data`, source lines 181-189 branches on `isinstance(..., dict)`). -/
inductive SkillField where
  | flat (skills : List String)
  | legacy (cats : List (String × List String))
deriving DecidableEq

/-- True when the field is in the current flat-list layout. -/
def SkillField.isFlat : SkillField → Bool
  | .flat _ => true
  | .legacy _ => false

/-- One team-member record, with exactly the keys created by
`add_team_member` (source lines 881-897). -/
structure Member where
  job_title : String
  join_date : String
  birthday : String
  technical_skills : SkillField
  soft_skills : SkillField
  software_skills : List String
  certifications : List String
  goals : List String
  development_plan : String
  hobbies : List String
  interests : List String
  family : String
  achievements : List String
  issues_concerns : String
  other_personal_details : String
deriving DecidableEq

/-- The `skills_data` store: Technical / Soft Skills as category maps (their
legacy home), Software Skills and Certifications as flat lists
(`load_data` default, source lines 170-175). -/
structure SkillsData where
  technical : List (String × List String)
  soft : List (String × List String)
  software : List String
  certifications : List String
deriving DecidableEq

/-- The `subskills_data` store: the canonical category → subskills taxonomy
for the two hierarchical families (`load_data`, source lines 176-179). -/
structure SubskillsData where
  technical : List (String × List String)
  soft : List (String × List String)
deriving DecidableEq

/-- The `self.categories` structure: skill-family name → (category →
subskill list) (`initialize_data_structures`, source lines 117-122). -/
abbrev Categories := List (String × List (String × List String))

/-- The mutable stores of one `AscentPro` object that the modelled
operations touch. -/
structure State where
  team_members : List (String × Member)
  skills_data : SkillsData
  subskills_data : SubskillsData
  meetings : List Meeting
  categories : Categories
deriving DecidableEq

/-- The persisted JSON document: exactly the four keys written by
`save_data` (source lines 220-225). -/
structure Doc where
  team_members : List (String × Member)
  skills_data : SkillsData
  subskills_data : SubskillsData
  meetings : List Meeting
deriving DecidableEq

/-! ### Persistence gateway -/

/-- Mirrors `save_data` (source lines 216-229): serializes `team_members`,
`skills_data`, `subskills_data` and `meetings` — and nothing else — into
one document. -/
def save_data (s : State) : Doc :=
  ⟨s.team_members, s.skills_data, s.subskills_data, s.meetings⟩

/-- Mirrors the nested loop of `load_data` (source lines 186-188): each
`category → [skill, ...]` entry contributes one `"category: skill"`
string per skill, categories in stored order, skills in stored order. -/
def flattenLegacy : List (String × List String) → List String
  | [] => []
  | (category, skills) :: rest =>
    skills.map (fun skill => category ++ ": " ++ skill) ++ flattenLegacy rest

/-- Mirrors the `isinstance(member.get(skill_type), dict)` branch of
`load_data` (source lines 184-189): a legacy map is replaced by its
flattened list, a flat list is left alone. -/
def migrateField : SkillField → SkillField
  | .flat skills => .flat skills
  | .legacy cats => .flat (flattenLegacy cats)

/-- Applies the legacy migration to the two fields `load_data` inspects
(source line 183: `for skill_type in ["technical_skills", "soft_skills"]`). -/
def migrateMember (m : Member) : Member :=
  { m with
    technical_skills := migrateField m.technical_skills
    soft_skills := migrateField m.soft_skills }

/-- Mirrors the successful branch of `load_data` (source lines 167-189) on a
well-formed document that has all four keys: the four stores are read
back and every member record is run through the legacy migration. -/
def load_data (d : Doc) : Doc :=
  { d with team_members := d.team_members.map (fun p => (p.1, migrateMember p.2)) }

/-! ### Startup sequence -/

/-- Mirrors `initialize_data_structures` (source lines 109-124): all stores
empty, `categories` seeded with the four empty skill families. -/
def initial_state : State :=
  { team_members := []
    skills_data := ⟨[], [], [], []⟩
    subskills_data := ⟨[], []⟩
    meetings := []
    categories :=
      [("Technical Skills", []), ("Soft Skills", []),
       ("Software Skills", []), ("Certifications", [])] }

/-- Installs the four stores hydrated by `load_data` into the object state
(`self.team_members = ...` etc., source lines 169-180). -/
def hydrate (s : State) (d : Doc) : State :=
  { s with
    team_members := (load_data d).team_members
    skills_data := (load_data d).skills_data
    subskills_data := (load_data d).subskills_data
    meetings := (load_data d).meetings }

/-- Mirrors the data effect of `create_widgets` (source lines 284-285):
its last statement is `self.meetings = []`, run unconditionally. -/
def create_widgets (s : State) : State :=
  { s with meetings := [] }

/-- The startup sequence of `AscentPro.__init__` against an existing
well-formed document (source lines 90-97): `load_data` runs first, then
`create_widgets`. -/
def startup (d : Doc) : State :=
  create_widgets (hydrate initial_state d)

/-! ### Meeting list display -/

/-- Stable insertion of a meeting into a list already sorted by date string
descending: `m` is placed before the first element whose date is not
strictly greater (Python string comparison is code-point lexicographic,
modelled by the lexicographic order on `String.data`). -/
def insertByDateDesc (m : Meeting) : List Meeting → List Meeting
  | [] => [m]
  | x :: xs =>
    if m.date.data < x.date.data then x :: insertByDateDesc m xs
    else m :: x :: xs

/-- Stable sort of the meeting log by raw date string, descending.  Python
`sorted(self.meetings, key=lambda x: x['date'], reverse=True)` is a
stable sort, and any stable descending sort produces the same list, so
stable insertion sort is an exact model of its result. -/
def sortByDateDesc : List Meeting → List Meeting
  | [] => []
  | x :: xs => insertByDateDesc x (sortByDateDesc xs)

/-- Mirrors `refresh_meetings_list` (source lines 1559-1563): the displayed
sequence of meetings (each rendered as `"date - title"`) is the stored
log sorted with `key=lambda x: x['date'], reverse=True`; the stored
`self.meetings` list itself is not modified. -/
def refresh_meetings_list (meetings : List Meeting) : List Meeting :=
  sortByDateDesc meetings

/-- Value of a nonempty all-digit character list, `none` otherwise. -/
def digitsValAux (acc : Nat) : List Char → Option Nat
  | [] => some acc
  | c :: cs => if c.isDigit then digitsValAux (acc * 10 + (c.toNat - 48)) cs else none

/-- Value of a nonempty all-digit character list, `none` otherwise. -/
def digitsVal (cs : List Char) : Option Nat :=
  if cs.isEmpty then none else digitsValAux 0 cs

/-- Reads a `DD/MM/YYYY` date string as the number `YYYYMMDD`, so that the
order of these keys is the calendar order that
`datetime.strptime(date, "%d/%m/%Y")` induces on valid dates. -/
def parseDMY (s : String) : Option Nat :=
  match pySplit '/' s with
  | [d, m, y] =>
    match digitsVal d.data, digitsVal m.data, digitsVal y.data with
    | some dd, some mm, some yy => some (yy * 10000 + mm * 100 + dd)
    | _, _, _ => none
  | _ => none

/-! ### Taxonomy store: bulk subskill add -/

/-- Mirrors `add_multiple_subskills` (source lines 1199-1227) acting on
`existing = self.subskills_data[skill_type][category]` for the selected
hierarchical family and category.  Blank input text is rejected before
splitting (`if not subskills_text`), giving `none`.  Otherwise the text
is split on commas, each token stripped, empty tokens dropped, and each
token is appended if and only if it is not already in the list — the
membership test runs against the list as it grows, so repeats inside
the input are also skipped.  The returned count is
`len(added_subskills)`, the number actually appended. -/
def add_multiple_subskills (existing : List String) (text : String) :
    Option (List String × Nat) :=
  let subskills_text := pyStrip text
  if subskills_text = "" then none
  else
    let subskills := ((pySplit ',' subskills_text).map pyStrip).filter (fun s => s ≠ "")
    some (subskills.foldl
      (fun acc s => if s ∈ acc.1 then acc else (acc.1 ++ [s], acc.2 + 1))
      (existing, 0))

/-- Specification-side description of the tokens a bulk add should append:
those input tokens not already present, in input order, each at most
once. -/
def newTokens (existing : List String) : List String → List String
  | [] => []
  | s :: rest =>
    if s ∈ existing then newTokens existing rest
    else s :: newTokens (existing ++ [s]) rest

/-! ### Bulk importer (CSV upload) -/

/-- Mirrors the row normalization of `upload_skills_csv` (source lines
1659-1660): a single-field row is re-split on commas, any other row is
kept as delivered by the tab-delimited reader. -/
def resolveRow : List String → List String
  | [single] => pySplit ',' single
  | row => row

/-- True when the association list has an entry with key `k`
(Python `k in d` on a dict). -/
def hasKey {α : Type} : List (String × α) → String → Bool
  | [], _ => false
  | p :: rest, k => if p.1 = k then true else hasKey rest k

/-- Applies `f` to the value stored under key `k` (Python `d[k] = f(d[k])`
on a dict with unique keys; entries under other keys are untouched). -/
def modifyValue {α : Type} (k : String) (f : α → α) :
    List (String × α) → List (String × α)
  | [] => []
  | p :: rest =>
    if p.1 = k then (p.1, f p.2) :: modifyValue k f rest
    else p :: modifyValue k f rest

/-- Mirrors the per-row mutation of `upload_skills_csv` (source lines
1665-1670): create the top-level key and the subcategory if missing
(new dict keys append at the end), then append the skill if absent. -/
def insertCsvSkill (cats : Categories) (category subcategory skill : String) :
    Categories :=
  let cats1 := if hasKey cats category then cats else cats ++ [(category, [])]
  modifyValue category
    (fun subs =>
      let subs1 := if hasKey subs subcategory then subs else subs ++ [(subcategory, [])]
      modifyValue subcategory
        (fun skills => if skill ∈ skills then skills else skills ++ [skill])
        subs1)
    cats1

/-- Mirrors the row loop of `upload_skills_csv` (source lines 1658-1670) on
the data rows that follow the header: each row is normalized by
`resolveRow`; a row of exactly three fields has its fields stripped and
inserted, anything else raises `ValueError` — modelled by stopping with
the error flag `true` while keeping the mutations already applied,
since the exception is caught only outside the loop. -/
def uploadRows (cats : Categories) : List (List String) → Categories × Bool
  | [] => (cats, false)
  | row :: rest =>
    match resolveRow row with
    | [category, subcategory, skill] =>
      uploadRows
        (insertCsvSkill cats (pyStrip category) (pyStrip subcategory) (pyStrip skill))
        rest
    | _ => (cats, true)

/-- Effect of `upload_skills_csv` on the object state: only
`self.categories` is written (source lines 1665-1670); every other
store is untouched. -/
def upload_skills_csv (s : State) (rows : List (List String)) : State :=
  { s with categories := (uploadRows s.categories rows).1 }

/-! ### Member registry operations -/

/-- Typed failures of `add_skill_to_member`: an empty category or subskill
selection, or a skill string already assigned (source lines 540-553). -/
inductive AddSkillError where
  | emptySelection
  | duplicate
deriving DecidableEq

/-- Mirrors `add_skill_to_member` (source lines 526-558) for a hierarchical
family, acting on the selected member record field
`skill_list = member[skill_type.lower().replace(" ", "_")]`: an empty
category or subskill is rejected, the canonical string
`"{category}: {subskill}"` is composed, a string already present is
rejected with the list untouched, otherwise it is appended once. -/
def add_skill_to_member (skill_list : List String) (category subskill : String) :
    Except AddSkillError (List String) :=
  if category = "" ∨ subskill = "" then .error .emptySelection
  else
    let skill := category ++ ": " ++ subskill
    if skill ∈ skill_list then .error .duplicate
    else .ok (skill_list ++ [skill])

/-- Mirrors the data effect of `move_goal_to_achievement` (source lines
1072-1089), the double-click handler on the goals Text widget, invoked
when the widget displays the member's goals (`load_member_data` fills it
with `"\n".join(member['goals'])`, source line 977).  The result triple
is `(member['goals'], member['achievements'], displayed goal lines)`
after the handler: when the clicked 1-based line number is in range, the
goal at that position is popped FROM THE LOCAL LIST read out of the
widget, the widget is rewritten without it, and the popped goal is
appended to `member['achievements']` — but `member['goals']` itself is
never written by this handler (that key is written only by
`update_team_member`, source line 1064), so it keeps the moved goal;
when the line number is out of range, the guard
`1 <= line_num <= len(goals)` fails and the handler returns with
everything untouched — no exception is raised. -/
def move_goal_to_achievement (goals achievements : List String) (line_num : Nat) :
    List String × List String × List String :=
  if 1 ≤ line_num ∧ line_num ≤ goals.length then
    (goals,
     achievements ++ (goals.drop (line_num - 1)).take 1,
     goals.take (line_num - 1) ++ goals.drop line_num)
  else (goals, achievements, goals)

/-! ### Taxonomy store: category deletion -/

/-- Mirrors `delete_category` (source lines 1242-1252): the confirmed
deletion runs `del self.categories[skill_type][category]`, removing the
category entry — and with it all its subskills — from that family;
nothing else on the object is written, in particular no member record. -/
def delete_category (s : State) (skill_type category : String) : State :=
  { s with
    categories :=
      modifyValue skill_type
        (fun m => m.filter (fun p => decide (p.1 ≠ category)))
        s.categories }

/-! ### Persistence round trip (C1) -/

/-- A member whose two migratable fields are already flat — the only shape
reachable in memory — is untouched by the migration. -/
theorem migrateMember_eq_self (m : Member)
    (ht : m.technical_skills.isFlat = true) (hs : m.soft_skills.isFlat = true) :
    migrateMember m = m := by
  cases htf : m.technical_skills with
  | legacy c => rw [htf] at ht; simp [SkillField.isFlat] at ht
  | flat l =>
    cases hsf : m.soft_skills with
    | legacy c => rw [hsf] at hs; simp [SkillField.isFlat] at hs
    | flat l2 =>
      simp only [migrateMember, migrateField, htf, hsf]
      rw [← htf, ← hsf]

/-- Mapping the migration over a registry of flat-field members is the
identity. -/
theorem map_migrate_eq_self (l : List (String × Member))
    (h : ∀ p ∈ l, p.2.technical_skills.isFlat = true ∧ p.2.soft_skills.isFlat = true) :
    l.map (fun p => (p.1, migrateMember p.2)) = l := by
  induction l with
  | nil => rfl
  | cons p rest ih =>
    have hp := h p (by simp)
    simp only [List.map_cons, migrateMember_eq_self p.2 hp.1 hp.2,
      ih (fun q hq => h q (by simp [hq]))]

/-- C1 (confirmed).  Round-trip persistence: on every state whose member
skill fields are in the flat layout — which is every reachable in-memory
state, since `add_team_member` creates them flat, the migration leaves
them flat, and all mutations append strings — `save_data` followed by
`load_data` reproduces a document whose Taxonomy Store (`skills_data`,
`subskills_data`), Member Registry (`team_members`) and Meeting Log
(`meetings`) are equal on all fields to the state that was saved. -/
theorem save_load_roundtrip (s : State)
    (h : ∀ p ∈ s.team_members,
      p.2.technical_skills.isFlat = true ∧ p.2.soft_skills.isFlat = true) :
    load_data (save_data s) = save_data s := by
  unfold load_data save_data
  simp [map_migrate_eq_self s.team_members h]

/-- Concrete member record used by the round-trip witness. -/
def rtMember : Member :=
  ⟨"Engineer", "01/01/2024", "02/02/1990", .flat ["A: x"], .flat ["B: y"],
   ["Excel"], ["Cert1"], ["goal1"], "plan", ["chess"], ["ai"], "fam",
   ["done1"], "", "notes"⟩

/-- Concrete state used by the round-trip witness. -/
def rtState : State :=
  ⟨[("Alice", rtMember)],
   ⟨[("A", ["x"])], [("B", ["y"])], ["Excel"], ["Cert1"]⟩,
   ⟨[("A", ["x"])], [("B", ["y"])]⟩,
   [⟨"01/01/2024", "kickoff", "h", "n", "a"⟩],
   [("Technical Skills", [("A", ["x"])])]⟩

/-- Witness for C1 at a concrete populated state. -/
theorem save_load_roundtrip_witness :
    load_data (save_data rtState) = save_data rtState :=
  save_load_roundtrip rtState (by decide)

/-! ### Legacy migration (C2) -/

/-- The migration loop concatenates, category by category in stored order,
the per-category lists of `"category: skill"` strings. -/
theorem flattenLegacy_eq_join (cats : List (String × List String)) :
    flattenLegacy cats =
      (cats.map (fun p => p.2.map (fun sk => p.1 ++ ": " ++ sk))).flatten := by
  induction cats with
  | nil => rfl
  | cons p rest ih => simp [flattenLegacy, ih]

/-- C2 (confirmed).  Legacy migration: every stored member reappears after
`load_data` with the migration applied, and whenever `technical_skills`
(or `soft_skills`) was stored in the legacy nested-map layout it is
replaced by the single flat list holding one `"category: skill"` string
per skill — categories in stored order, skills in stored order within
each category, concatenated in that order. -/
theorem load_migrates_legacy_skills (d : Doc) (n : String) (m : Member)
    (hmem : (n, m) ∈ d.team_members) :
    (n, migrateMember m) ∈ (load_data d).team_members ∧
    (∀ cats, m.technical_skills = .legacy cats →
      (migrateMember m).technical_skills =
        .flat ((cats.map (fun p => p.2.map (fun sk => p.1 ++ ": " ++ sk))).flatten)) ∧
    (∀ cats, m.soft_skills = .legacy cats →
      (migrateMember m).soft_skills =
        .flat ((cats.map (fun p => p.2.map (fun sk => p.1 ++ ": " ++ sk))).flatten)) := by
  refine ⟨?_, ?_, ?_⟩
  · unfold load_data
    simpa using List.mem_map_of_mem (fun p => (p.1, migrateMember p.2)) hmem
  · intro cats hc
    simp [migrateMember, migrateField, hc, flattenLegacy_eq_join]
  · intro cats hc
    simp [migrateMember, migrateField, hc, flattenLegacy_eq_join]

/-- Concrete legacy-layout member used by the migration witness. -/
def mgMember : Member :=
  ⟨"Dev", "01/01/2024", "02/02/1990", .legacy [("A", ["x", "y"])], .flat [],
   [], [], [], "", [], [], "", [], "", ""⟩

/-- Concrete document used by the migration witness. -/
def mgDoc : Doc := ⟨[("Bob", mgMember)], ⟨[], [], [], []⟩, ⟨[], []⟩, []⟩

/-- Witness for C2: the document example of the specification,
`technical_skills: {"A": ["x","y"]}`, loads as `["A: x", "A: y"]`. -/
theorem load_migrates_legacy_skills_witness :
    ("Bob", migrateMember mgMember) ∈ (load_data mgDoc).team_members ∧
    (migrateMember mgMember).technical_skills = .flat ["A: x", "A: y"] := by
  have h := load_migrates_legacy_skills mgDoc "Bob" mgMember (by decide)
  refine ⟨h.1, ?_⟩
  rw [h.2.1 [("A", ["x", "y"])] rfl]
  decide

/-! ### Startup hydration (C3) -/

/-- Concrete document with a nonempty meeting log, used to exhibit the
startup defect. -/
def c3Doc : Doc :=
  ⟨[], ⟨[], [], [], []⟩, ⟨[], []⟩, [⟨"01/01/2024", "Kickoff", "h", "n", "a"⟩]⟩

/-- C3 (code bug).  Startup hydration of the meeting log fails: `__init__`
calls `load_data` (source line 92), which does hydrate `self.meetings`
from the document, but then calls `create_widgets` (source line 97),
whose final statement `self.meetings = []` (source line 285)
unconditionally discards the loaded meetings.  Once startup completes,
the in-memory meeting log is empty and differs from the nonempty
meetings array of the document. -/
theorem startup_drops_meetings :
    (startup c3Doc).meetings = [] ∧ (startup c3Doc).meetings ≠ c3Doc.meetings := by
  exact ⟨rfl, by decide⟩

/-! ### Meeting list ordering (C4) -/

/-- Everything in an insertion result is the inserted meeting or an element
of the original list. -/
theorem mem_insertByDateDesc {m z : Meeting} {l : List Meeting}
    (h : z ∈ insertByDateDesc m l) : z = m ∨ z ∈ l := by
  induction l with
  | nil => simpa [insertByDateDesc] using h
  | cons x xs ih =>
    by_cases hc : m.date.data < x.date.data
    · simp only [insertByDateDesc, if_pos hc, List.mem_cons] at h
      rcases h with h | h
      · exact Or.inr (by simp [h])
      · rcases ih h with h2 | h2
        · exact Or.inl h2
        · exact Or.inr (by simp [h2])
    · simp only [insertByDateDesc, if_neg hc, List.mem_cons] at h
      rcases h with h | h
      · exact Or.inl h
      · exact Or.inr (by simpa using h)

/-- Insertion produces a permutation of the cons. -/
theorem perm_insertByDateDesc (m : Meeting) (l : List Meeting) :
    (insertByDateDesc m l).Perm (m :: l) := by
  induction l with
  | nil => simp [insertByDateDesc]
  | cons x xs ih =>
    by_cases hc : m.date.data < x.date.data
    · simp only [insertByDateDesc, if_pos hc]
      exact (ih.cons x).trans (List.Perm.swap m x xs)
    · simp [insertByDateDesc, if_neg hc]

/-- Insertion into a date-descending list stays date-descending. -/
theorem pairwise_insertByDateDesc {m : Meeting} {l : List Meeting}
    (h : l.Pairwise (fun a b => b.date.data ≤ a.date.data)) :
    (insertByDateDesc m l).Pairwise (fun a b => b.date.data ≤ a.date.data) := by
  induction l with
  | nil => simp [insertByDateDesc]
  | cons x xs ih =>
    rcases List.pairwise_cons.mp h with ⟨hx, hxs⟩
    by_cases hc : m.date.data < x.date.data
    · simp only [insertByDateDesc, if_pos hc]
      refine List.pairwise_cons.mpr ⟨?_, ih hxs⟩
      intro z hz
      rcases mem_insertByDateDesc hz with rfl | hz2
      · exact le_of_lt hc
      · exact hx z hz2
    · simp only [insertByDateDesc, if_neg hc]
      refine List.pairwise_cons.mpr ⟨?_, h⟩
      intro z hz
      rcases List.mem_cons.mp hz with rfl | hz2
      · exact le_of_not_lt hc
      · exact le_trans (hx z hz2) (le_of_not_lt hc)

/-- Insertion does not change the subsequence of meetings carrying any
fixed date: the inserted element passes only over strictly greater
dates, so it lands before every element with its own date. -/
theorem filter_insertByDateDesc (m : Meeting) (l : List Meeting) (d : String) :
    (insertByDateDesc m l).filter (fun x => decide (x.date = d)) =
      (m :: l).filter (fun x => decide (x.date = d)) := by
  induction l with
  | nil => rfl
  | cons x xs ih =>
    by_cases hc : m.date.data < x.date.data
    · simp only [insertByDateDesc, if_pos hc]
      by_cases hm : m.date = d
      · have hx : ¬ x.date = d := by
          intro hxd
          have hmx : m.date = x.date := by rw [hm, hxd]
          rw [hmx] at hc
          exact lt_irrefl _ hc
        simp [List.filter_cons, hm, hx] at ih ⊢
        exact ih
      · simp [List.filter_cons, hm] at ih ⊢
        by_cases hx : x.date = d <;> simp [hx, ih]
    · simp [insertByDateDesc, if_neg hc]

/-- C4 amended theorem.  The displayed meeting sequence is a permutation of
the stored log ordered by the RAW date string descending (Python sorts
with `key=lambda x: x['date']`, a code-point lexicographic comparison of
the `DD/MM/YYYY` strings, not of parsed dates), with ties between equal
date strings broken by original insertion order (stability, expressed
as preservation of the subsequence of each fixed date); the stored log
itself is not modified — `refresh_meetings_list` only reads it. -/
theorem refresh_meetings_list_spec (l : List Meeting) :
    (refresh_meetings_list l).Perm l ∧
    (refresh_meetings_list l).Pairwise (fun a b => b.date.data ≤ a.date.data) ∧
    ∀ d : String,
      (refresh_meetings_list l).filter (fun x => decide (x.date = d)) =
        l.filter (fun x => decide (x.date = d)) := by
  refine ⟨?_, ?_, ?_⟩
  · show (sortByDateDesc l).Perm l
    induction l with
    | nil => simp [sortByDateDesc]
    | cons x xs ih =>
      exact (perm_insertByDateDesc x (sortByDateDesc xs)).trans (ih.cons x)
  · show (sortByDateDesc l).Pairwise _
    induction l with
    | nil => simp [sortByDateDesc]
    | cons x xs ih => exact pairwise_insertByDateDesc ih
  · intro d
    show (sortByDateDesc l).filter _ = _
    induction l with
    | nil => rfl
    | cons x xs ih =>
      calc (sortByDateDesc (x :: xs)).filter (fun x => decide (x.date = d))
          = (x :: sortByDateDesc xs).filter (fun x => decide (x.date = d)) :=
            filter_insertByDateDesc x (sortByDateDesc xs) d
        _ = (x :: xs).filter (fun x => decide (x.date = d)) := by
            simp [List.filter_cons, ih]

/-- Concrete meeting dated the second of January 2024. -/
def c4Jan : Meeting := ⟨"02/01/2024", "january meeting", "", "", ""⟩

/-- Concrete meeting dated the first of February 2024. -/
def c4Feb : Meeting := ⟨"01/02/2024", "february meeting", "", "", ""⟩

/-- C4 counterexample.  On the log `[c4Jan, c4Feb]` the displayed sequence
keeps `c4Jan` (parsed date 2 January 2024, key 20240102) before `c4Feb`
(parsed date 1 February 2024, key 20240201), because the raw strings
compare `"02/01/2024" > "01/02/2024"` — so the display is NOT ordered by
parsed `DD/MM/YYYY` date descending, refuting the claim as stated. -/
theorem refresh_not_parsed_date_desc :
    refresh_meetings_list [c4Jan, c4Feb] = [c4Jan, c4Feb] ∧
    parseDMY c4Jan.date = some 20240102 ∧
    parseDMY c4Feb.date = some 20240201 ∧
    20240102 < 20240201 := by decide

/-! ### Bulk subskill add (C5) -/

/-- The membership-checking append loop of `add_multiple_subskills` appends
exactly the tokens described by `newTokens` and counts them. -/
theorem foldl_newTokens (toks ex : List String) (n : Nat) :
    toks.foldl (fun acc s => if s ∈ acc.1 then acc else (acc.1 ++ [s], acc.2 + 1)) (ex, n) =
      (ex ++ newTokens ex toks, n + (newTokens ex toks).length) := by
  induction toks generalizing ex n with
  | nil => simp [newTokens]
  | cons s rest ih =>
    by_cases hs : s ∈ ex
    · simp [List.foldl_cons, hs, newTokens, ih]
    · simp only [List.foldl_cons, if_neg hs, newTokens, ih (ex ++ [s]) (n + 1),
        List.append_assoc, List.singleton_append, List.length_cons, Prod.mk.injEq]
      exact ⟨trivial, by omega⟩

/-- C5 (confirmed).  For any existing subskill list and any input text that
survives the blank-entry guard, the bulk add splits the text on commas,
strips each token, drops empty tokens, appends exactly the surviving
tokens not already present — in input order, each at most once, so that
repeats inside the input and tokens already stored are silently skipped
without failing the call — and reports the number actually appended. -/
theorem add_multiple_subskills_spec (existing : List String) (text : String)
    (h : pyStrip text ≠ "") :
    add_multiple_subskills existing text =
      some (existing ++
          newTokens existing
            (((pySplit ',' (pyStrip text)).map pyStrip).filter (fun s => s ≠ "")),
        (newTokens existing
            (((pySplit ',' (pyStrip text)).map pyStrip).filter (fun s => s ≠ ""))).length) := by
  unfold add_multiple_subskills
  rw [if_neg h]
  simp only [foldl_newTokens, Nat.zero_add]

/-- Witness for C5: starting from `["a"]`, the text `" a, b ,, b , c "`
tokenizes to `a, b, b, c`; only `b` and `c` are new, so they are
appended once each and the reported count is 2. -/
theorem add_multiple_subskills_witness :
    add_multiple_subskills ["a"] " a, b ,, b , c " = some (["a", "b", "c"], 2) := by
  rw [add_multiple_subskills_spec ["a"] " a, b ,, b , c " (by decide)]
  decide

/-! ### CSV import failure condition (C6) -/

/-- A list of strings has length three exactly when it is a three-element
list. -/
theorem length_eq_three_iff (l : List String) :
    l.length = 3 ↔ ∃ a b c, l = [a, b, c] := by
  constructor
  · intro h
    rcases l with _ | ⟨a, l⟩
    · simp at h
    rcases l with _ | ⟨b, l⟩
    · simp at h
    rcases l with _ | ⟨c, l⟩
    · simp at h
    rcases l with _ | ⟨e, l⟩
    · exact ⟨a, b, c, rfl⟩
    · simp at h
  · rintro ⟨a, b, c, rfl⟩
    rfl

/-- C6 amended theorem.  The import raises (`ValueError`, caught outside
the loop and surfaced as the format error) if and only if some data row
fails to resolve — after the single-field comma re-split — to exactly
three FIELDS; the fields are not required to be non-empty after
stripping.  Processing stops at the first malformed row (the
`uploadRows` recursion returns there), so rows already applied stay
applied and later rows are never reached. -/
theorem uploadRows_error_iff (cats : Categories) (rows : List (List String)) :
    (uploadRows cats rows).2 = true ↔ ∃ row ∈ rows, (resolveRow row).length ≠ 3 := by
  induction rows generalizing cats with
  | nil => simp [uploadRows]
  | cons row rest ih =>
    by_cases h3 : (resolveRow row).length = 3
    · obtain ⟨a, b, c, habc⟩ := (length_eq_three_iff _).mp h3
      unfold uploadRows
      rw [habc]
      simp only [List.mem_cons, ih]
      constructor
      · rintro ⟨r, hr, hrl⟩
        exact ⟨r, Or.inr hr, hrl⟩
      · rintro ⟨r, hr | hr, hrl⟩
        · rw [hr, habc] at hrl
          simp at hrl
        · exact ⟨r, hr, hrl⟩
    · unfold uploadRows
      rcases hr : resolveRow row with _ | ⟨a, _ | ⟨b, _ | ⟨c, _ | ⟨e, tl⟩⟩⟩⟩
      · exact iff_of_true rfl ⟨row, List.mem_cons_self row rest, h3⟩
      · exact iff_of_true rfl ⟨row, List.mem_cons_self row rest, h3⟩
      · exact iff_of_true rfl ⟨row, List.mem_cons_self row rest, h3⟩
      · rw [hr] at h3
        simp at h3
      · exact iff_of_true rfl ⟨row, List.mem_cons_self row rest, h3⟩

/-- C6 counterexample.  The data row `["a", "", "c"]` has three fields but
its middle field strips to the empty string; the import nevertheless
succeeds (error flag `false`) and stores the empty-named subcategory,
refuting the claimed "three NON-EMPTY trimmed fields" failure
condition. -/
theorem upload_empty_field_no_error :
    uploadRows [] [["a", "", "c"]] = ([("a", [("", ["c"])])], false) ∧
    pyStrip "" = "" := by decide

/-! ### Duplicate skill assignment (C7) -/

/-- C7 (confirmed).  With a nonempty category and subskill selected,
`add_skill_to_member` composes the canonical `"category: subskill"`
string; when that exact string is already in the member's list for the
family, the call fails with the duplicate error and — returning before
the `append` — leaves the list unchanged; when it is absent, the new
list is the old one with the string appended, which then occurs in it
exactly once. -/
theorem add_skill_to_member_spec (l : List String) (category subskill : String)
    (hc : category ≠ "") (hs : subskill ≠ "") :
    (category ++ ": " ++ subskill ∈ l →
      add_skill_to_member l category subskill = .error .duplicate) ∧
    (category ++ ": " ++ subskill ∉ l →
      add_skill_to_member l category subskill =
        .ok (l ++ [category ++ ": " ++ subskill]) ∧
      (l ++ [category ++ ": " ++ subskill]).count (category ++ ": " ++ subskill) = 1) := by
  unfold add_skill_to_member
  rw [if_neg (by simp [hc, hs])]
  constructor
  · intro hmem
    rw [if_pos hmem]
  · intro hmem
    rw [if_neg hmem]
    refine ⟨rfl, ?_⟩
    rw [List.count_append, List.count_eq_zero.mpr hmem, List.count_singleton_self]

/-- Witness for C7, matching the testable property of the specification:
with `"A: x"` already assigned, assigning category `A` / subskill `x`
again fails with the duplicate error; assigning the absent `A: y`
appends it once. -/
theorem add_skill_to_member_witness :
    add_skill_to_member ["A: x"] "A" "x" = .error .duplicate ∧
    add_skill_to_member ["A: x"] "A" "y" = .ok ["A: x", "A: y"] := by
  constructor
  · exact (add_skill_to_member_spec ["A: x"] "A" "x" (by decide) (by decide)).1 (by decide)
  · exact ((add_skill_to_member_spec ["A: x"] "A" "y" (by decide) (by decide)).2 (by decide)).1

/-! ### Goal-to-achievement move (C8) -/

/-- C8 amended theorem.  For the clicked 1-based line number `i + 1` (the
claim's 0-based index `i`), with the widget displaying the member's
goals: in range, the member's stored goals list is left UNCHANGED — the
handler never writes `member['goals']`, so the subsequent save persists
it still containing the moved goal — while the goal at position `i` is
appended to the member's achievements and removed only from the
displayed goal lines, the remaining lines keeping their order (exactly
`List.eraseIdx`); out of range, the guard
`1 <= line_num <= len(goals)` fails and the handler leaves everything
untouched WITHOUT raising any error. -/
theorem move_goal_to_achievement_spec (goals ach : List String) (i : Nat) :
    (i < goals.length →
      move_goal_to_achievement goals ach (i + 1) =
        (goals, ach ++ [goals.getD i ""], goals.eraseIdx i)) ∧
    (goals.length ≤ i →
      move_goal_to_achievement goals ach (i + 1) = (goals, ach, goals)) := by
  constructor
  · intro hi
    unfold move_goal_to_achievement
    rw [if_pos ⟨by omega, by omega⟩]
    rw [List.eraseIdx_eq_take_drop_succ]
    rw [Nat.add_sub_cancel]
    rw [List.drop_eq_getElem_cons hi, List.take_succ_cons, List.take_zero,
      List.getD_eq_getElem goals "" hi]
  · intro hi
    rw [move_goal_to_achievement, if_neg]
    rintro ⟨h1, h2⟩
    omega

/-- C8 counterexample, refuting both halves of the claim as stated.
In range: moving index 0 from goals `["g1", "g2"]` (the specification's
own test) appends `"g1"` to achievements and shrinks only the displayed
lines to `["g2"]`, while the member's stored goals — the first
component — remain `["g1", "g2"]`, NOT the claimed `["g2"]`.  Out of
range: on goals `["g1"]` the claim's index 1 (line number 2) must fail
with an IndexError-class condition, but the handler returns normally
with everything unchanged. -/
theorem move_goal_counterexamples :
    move_goal_to_achievement ["g1", "g2"] [] 1 = (["g1", "g2"], ["g1"], ["g2"]) ∧
    (move_goal_to_achievement ["g1", "g2"] [] 1).1 ≠ ["g2"] ∧
    move_goal_to_achievement ["g1"] [] 2 = (["g1"], [], ["g1"]) := by decide

/-- Witness for C8 at concrete inputs: the in-range branch at index 0 of
`["g1", "g2"]` and the out-of-range branch at index 2. -/
theorem move_goal_to_achievement_witness :
    move_goal_to_achievement ["g1", "g2"] [] 1 = (["g1", "g2"], ["g1"], ["g2"]) ∧
    move_goal_to_achievement ["g1", "g2"] [] 3 = (["g1", "g2"], [], ["g1", "g2"]) := by
  constructor
  · have h := (move_goal_to_achievement_spec ["g1", "g2"] [] 0).1 (by decide)
    rw [h]
    decide
  · exact (move_goal_to_achievement_spec ["g1", "g2"] [] 2).2 (by decide)

/-! ### No cascade on category deletion (C9) -/

/-- Every entry of a `modifyValue` result either kept its key different
from `k` and was copied unchanged, or has key `k` and carries `f`
applied to a stored value. -/
theorem mem_modifyValue {α : Type} {k : String} {f : α → α}
    {l : List (String × α)} {q : String × α} (hq : q ∈ modifyValue k f l) :
    (q.1 ≠ k ∧ q ∈ l) ∨ ∃ v, (k, v) ∈ l ∧ q = (k, f v) := by
  induction l with
  | nil => simp [modifyValue] at hq
  | cons p rest ih =>
    by_cases hp : p.1 = k
    · simp only [modifyValue, if_pos hp] at hq
      rcases List.mem_cons.mp hq with rfl | h2
      · right
        refine ⟨p.2, ?_, by rw [hp]⟩
        rw [← hp]
        exact List.mem_cons_self p rest
      · rcases ih h2 with ⟨hne, hmem⟩ | ⟨v, hv, hq2⟩
        · exact Or.inl ⟨hne, by simp [hmem]⟩
        · exact Or.inr ⟨v, by simp [hv], hq2⟩
    · simp only [modifyValue, if_neg hp] at hq
      rcases List.mem_cons.mp hq with rfl | h2
      · exact Or.inl ⟨hp, by simp⟩
      · rcases ih h2 with ⟨hne, hmem⟩ | ⟨v, hv, hq2⟩
        · exact Or.inl ⟨hne, by simp [hmem]⟩
        · exact Or.inr ⟨v, by simp [hv], hq2⟩

/-- C9 (confirmed).  Deleting a category present in a hierarchical family
removes that category — and with it all its subskills — from the
family's taxonomy, while the member registry is left completely
unchanged: assigned `"category: subskill"` strings that reference the
deleted category persist on the members as orphans. -/
theorem delete_category_spec (s : State) (fam cat : String)
    (hpresent : ∃ fm ∈ s.categories, fm.1 = fam ∧ ∃ p ∈ fm.2, p.1 = cat) :
    (delete_category s fam cat).team_members = s.team_members ∧
    ∀ fm ∈ (delete_category s fam cat).categories, fm.1 = fam →
      ∀ p ∈ fm.2, p.1 ≠ cat := by
  refine ⟨rfl, ?_⟩
  intro fm hfm hfam p hp
  rcases mem_modifyValue hfm with ⟨hne, _⟩ | ⟨v, _, hq⟩
  · exact absurd hfam hne
  · rw [hq] at hp
    simp only [List.mem_filter, decide_eq_true_eq] at hp
    exact hp.2

/-- Concrete member holding the orphan-to-be skill string. -/
def c9Member : Member :=
  ⟨"Dev", "01/01/2024", "02/02/1990", .flat ["A: x"], .flat [],
   [], [], [], "", [], [], "", [], "", ""⟩

/-- Concrete state whose Technical Skills family holds categories `A`
and `B`, with member Alice assigned `"A: x"`. -/
def c9State : State :=
  ⟨[("Alice", c9Member)], ⟨[], [], [], []⟩, ⟨[], []⟩, [],
   [("Technical Skills", [("A", ["x"]), ("B", ["y"])])]⟩

/-- Witness for C9: deleting category `A` leaves the member registry — and
with it Alice's orphaned `"A: x"` — untouched. -/
theorem delete_category_witness :
    (delete_category c9State "Technical Skills" "A").team_members =
      c9State.team_members :=
  (delete_category_spec c9State "Technical Skills" "A" (by decide)).1

/-! ### CSV import mutations are not persisted (C10) -/

/-- C10 (confirmed).  A successful CSV import mutates only
`self.categories`, while `save_data` serializes only `team_members`,
`skills_data`, `subskills_data` and `meetings`; the document saved
after the import is therefore identical to the one saved without it,
so imported taxonomy rows do not survive a save/load cycle. -/
theorem upload_not_persisted (s : State) (rows : List (List String))
    (hok : (uploadRows s.categories rows).2 = false) :
    save_data (upload_skills_csv s rows) = save_data s := rfl

/-- Concrete empty state used by the C10 witness. -/
def c10State : State := ⟨[], ⟨[], [], [], []⟩, ⟨[], []⟩, [], []⟩

/-- Witness for C10 at a concrete well-formed import that succeeds. -/
theorem upload_not_persisted_witness :
    save_data (upload_skills_csv c10State [["Tech", "Languages", "Python"]]) =
      save_data c10State :=
  upload_not_persisted c10State [["Tech", "Languages", "Python"]] (by decide)

end AscentPro
